import Mathlib

/-!
Verification of `@suin/shell-escape-arg` (src/ts/index.ts).

The library exports one function, `shellEscapeArg`, which converts a string
into a POSIX-sh-safe single argument literal.  We embed the TypeScript code
shallowly: a JavaScript string becomes a `List Char` of Unicode code points
(every character the algorithm inspects lies in the BMP, where UTF-16 code
units and code points coincide), the `typeof` guard is modelled by an input
type with a non-string constructor, and thrown errors become the `Except`
error branch carrying the error kind (`TypeError` vs plain `Error`) and the
exact message text from the source.
-/

/-- NUL, the code point U+0000 rejected by the library. -/
def nul : Char := Char.ofNat 0

/-- A JavaScript value passed to `shellEscapeArg`: either a string or some
non-string value (whose further identity the code never inspects). -/
inductive JSValue where
  | str : List Char → JSValue
  | nonString : JSValue

/-- The kind of error thrown: `TypeError` for non-string input, plain
`Error` for a string containing NUL. -/
inductive ErrKind where
  | typeErr : ErrKind
  | valueErr : ErrKind
deriving DecidableEq

/-- A thrown error: its kind together with its exact message. -/
structure ShellError where
  kind : ErrKind
  message : String
deriving DecidableEq

/-- Embedding of `startsWithTilde` (src/ts/index.ts:205): `s.startsWith("~")`. -/
def startsWithTilde : List Char → Bool
  | [] => false
  | c :: _ => c == '~'

/-- The code points carrying the Unicode White_Space property, the set matched
by the source's regex `/[\p\x7bWhite_Space\x7d]/u` (src/ts/index.ts:182) and
enumerated in its doc comment: TAB, LF, VT, FF, CR, SPACE, NEL, NBSP, Ogham
space mark, U+2000.U+200A, line/paragraph separator, narrow no-break space,
medium mathematical space, ideographic space. -/
def whiteSpaceCodes : List Nat :=
  [0x09, 0x0A, 0x0B, 0x0C, 0x0D, 0x20, 0x85, 0xA0, 0x1680,
   0x2000, 0x2001, 0x2002, 0x2003, 0x2004, 0x2005, 0x2006, 0x2007,
   0x2008, 0x2009, 0x200A, 0x2028, 0x2029, 0x202F, 0x205F, 0x3000]

/-- A single code point has the Unicode White_Space property. -/
def isWhiteSpaceChar (c : Char) : Bool := whiteSpaceCodes.contains c.toNat

/-- Embedding of `hasUnicodeWhitespace` (src/ts/index.ts:181). -/
def hasUnicodeWhitespace (s : List Char) : Bool := s.any isWhiteSpaceChar

/-- A single code point is an ASCII control character in U+0001.U+001F or
U+007F, the per-character test of `hasAsciiControlChars` (src/ts/index.ts:112). -/
def isAsciiControl (c : Char) : Bool :=
  decide ((0x01 ≤ c.toNat ∧ c.toNat ≤ 0x1f) ∨ c.toNat = 0x7f)

/-- Embedding of `hasAsciiControlChars` (src/ts/index.ts:109). -/
def hasAsciiControlChars (s : List Char) : Bool := s.any isAsciiControl

/-- The 20 characters of the source's metacharacter blacklist, the character
class of the regex in `hasShellMetaChars` (src/ts/index.ts:150). -/
def shellMetaChars : List Char :=
  ['\'', '"', '\\', '$', '`', '|', '&', ';', '<', '>',
   '(', ')', '*', '?', '[', ']', '{', '}', '!', '#']

/-- A single character is in the blacklist. -/
def isShellMetaChar (c : Char) : Bool := shellMetaChars.contains c

/-- Embedding of `hasShellMetaChars` (src/ts/index.ts:149). -/
def hasShellMetaChars (s : List Char) : Bool := s.any isShellMetaChar

/-- Embedding of `needsQuoting` (src/ts/index.ts:81): the logical OR of the
five classification predicates, in source order. -/
def needsQuoting (s : List Char) : Bool :=
  s.isEmpty || startsWithTilde s || hasUnicodeWhitespace s ||
    hasAsciiControlChars s || hasShellMetaChars s

/-- The replacement applied to one character by
`arg.replaceAll("'", "'\\''")` (src/ts/index.ts:74): a single quote becomes
the four characters close-quote, backslash, quote, open-quote; every other
character is kept. -/
def escQuote (c : Char) : List Char :=
  if c = '\'' then ['\'', '\\', '\'', '\''] else [c]

/-- Embedding of `arg.replaceAll("'", "'\\''")` (src/ts/index.ts:74). -/
def replaceQuotes : List Char → List Char
  | [] => []
  | c :: rest => escQuote c ++ replaceQuotes rest

/-- Embedding of `shellEscapeArg` (src/ts/index.ts:58): the type guard, the
NUL guard, the unquoted fast path, and the single-quoted escape path. -/
def shellEscapeArg : JSValue → Except ShellError (List Char)
  | JSValue.nonString =>
      Except.error ⟨ErrKind.typeErr, "escape: arg must be a string"⟩
  | JSValue.str arg =>
      if nul ∈ arg then
        Except.error ⟨ErrKind.valueErr, "escape: arg must not include NUL (\\u0000)"⟩
      else if !needsQuoting arg then
        Except.ok arg
      else
        Except.ok ('\'' :: (replaceQuotes arg ++ ['\'']))

/-- Modelled from the claim wording of the round-trip property: a
single-word parser in which unquoted characters are taken literally and, inside
`'...'`, every character except the single quote is literal.  The Bool is the
in-quotes state; an unterminated quote fails.  (This parser has no treatment of
the backslash; compare `parsePosix`.) -/
def parseClaim : Bool → List Char → Option (List Char)
  | false, [] => some []
  | true, [] => none
  | false, c :: rest =>
      if c = '\'' then parseClaim true rest
      else (parseClaim false rest).map (c :: ·)
  | true, c :: rest =>
      if c = '\'' then parseClaim false rest
      else (parseClaim true rest).map (c :: ·)

/-- Parsing one whole string as a single shell word under the claim's literal
reading. -/
def parseClaimWord (s : List Char) : Option (List Char) := parseClaim false s

/-- A POSIX single-word parser restricted to the constructs the library emits:
unquoted characters are literal except that `'` opens a quoted section and an
unquoted backslash escapes (makes literal) the immediately following
character; inside `'...'` every character except the single quote is literal.
The Bool is the in-quotes state; an unterminated quote or a trailing unquoted
backslash fails. -/
def parsePosix : Bool → List Char → Option (List Char)
  | false, [] => some []
  | true, [] => none
  | true, c :: rest =>
      if c = '\'' then parsePosix false rest
      else (parsePosix true rest).map (c :: ·)
  | false, c :: rest =>
      if c = '\'' then parsePosix true rest
      else if c = '\\' then
        match rest with
        | [] => none
        | d :: rest2 => (parsePosix false rest2).map (d :: ·)
      else (parsePosix false rest).map (c :: ·)

/-- Parsing one whole string as a single POSIX shell word. -/
def parsePosixWord (s : List Char) : Option (List Char) := parsePosix false s

example : shellEscapeArg (JSValue.str ['a', 'b', 'c']) = Except.ok ['a', 'b', 'c'] := rfl

example : shellEscapeArg (JSValue.str []) = Except.ok ['\'', '\''] := rfl

example : shellEscapeArg (JSValue.str ['a', ' ', 'b']) =
    Except.ok ['\'', 'a', ' ', 'b', '\''] := rfl

example : shellEscapeArg (JSValue.str ['O', '\'', 'R']) =
    Except.ok ['\'', 'O', '\'', '\\', '\'', '\'', 'R', '\''] := rfl

example : shellEscapeArg (JSValue.str ['~', 'u']) =
    Except.ok ['\'', '~', 'u', '\''] := rfl

example : shellEscapeArg (JSValue.str ['a', '~', 'b']) =
    Except.ok ['a', '~', 'b'] := rfl

example : shellEscapeArg (JSValue.str ['a', nul, 'b']) =
    Except.error ⟨ErrKind.valueErr, "escape: arg must not include NUL (\\u0000)"⟩ := rfl

example : parsePosixWord ['\'', 'a', '\'', '\\', '\'', '\'', 'b', '\''] =
    some ['a', '\'', 'b'] := rfl

example : parseClaimWord ['\'', 'a', '\'', '\\', '\'', '\'', 'b', '\''] = none := rfl

example : parseClaimWord ['\'', 'a', ' ', 'b', '\''] = some ['a', ' ', 'b'] := rfl

lemma needsQuoting_eq_false (s : List Char) (h : needsQuoting s = false) :
    s ≠ [] ∧ startsWithTilde s = false ∧ hasUnicodeWhitespace s = false ∧
      hasAsciiControlChars s = false ∧ hasShellMetaChars s = false := by
  simpa [needsQuoting, and_assoc] using h

lemma no_quote_backslash_of_no_meta {s : List Char} (h : hasShellMetaChars s = false)
    {c : Char} (hc : c ∈ s) : c ≠ '\'' ∧ c ≠ '\\' := by
  have hall : ∀ x ∈ s, isShellMetaChar x = false := by
    simpa [hasShellMetaChars, List.any_eq_false] using h
  constructor <;> rintro rfl
  · exact absurd (hall _ hc) (by decide)
  · exact absurd (hall _ hc) (by decide)

lemma parsePosix_false_quote (l : List Char) :
    parsePosix false ('\'' :: l) = parsePosix true l := by
  cases l with
  | nil => rfl
  | cons d l2 => rfl

lemma parsePosix_true_quote (l : List Char) :
    parsePosix true ('\'' :: l) = parsePosix false l := rfl

lemma parsePosix_false_backslash (d : Char) (l : List Char) :
    parsePosix false ('\\' :: d :: l) = (parsePosix false l).map (d :: ·) := rfl

lemma parsePosix_true_step (c : Char) (l : List Char) :
    parsePosix true (c :: l) =
      if c = '\'' then parsePosix false l
      else (parsePosix true l).map (c :: ·) := rfl

lemma parsePosix_false_other {c : Char} (h1 : c ≠ '\'') (h2 : c ≠ '\\')
    (l : List Char) : parsePosix false (c :: l) = (parsePosix false l).map (c :: ·) := by
  cases l with
  | nil => simp [parsePosix, h1, h2]
  | cons d l2 => simp [parsePosix, h1, h2]

lemma parsePosix_literal (s : List Char) (h : ∀ c ∈ s, c ≠ '\'' ∧ c ≠ '\\') :
    parsePosix false s = some s := by
  induction s with
  | nil => rfl
  | cons c rest ih =>
    have hc := h c (List.mem_cons_self c rest)
    have hrest := ih fun x hx => h x (List.mem_cons_of_mem c hx)
    rw [parsePosix_false_other hc.1 hc.2, hrest, Option.map_some']

lemma parsePosix_quoted (s : List Char) :
    parsePosix true (replaceQuotes s ++ ['\'']) = some s := by
  induction s with
  | nil => rfl
  | cons c rest ih =>
    by_cases hc : c = '\''
    · subst hc
      show parsePosix true
          ('\'' :: '\\' :: '\'' :: '\'' :: (replaceQuotes rest ++ ['\''])) =
        some ('\'' :: rest)
      rw [parsePosix_true_quote, parsePosix_false_backslash,
        parsePosix_false_quote, ih, Option.map_some']
    · show parsePosix true ((escQuote c ++ replaceQuotes rest) ++ ['\'']) =
        some (c :: rest)
      rw [escQuote, if_neg hc, List.singleton_append, List.cons_append,
        parsePosix_true_step, if_neg hc, ih, Option.map_some']

/-- C1 counterexample: for the input `a'b` (NUL-free), `shellEscapeArg`
produces `'a'\''b'`, but the parser defined by the claim's own wording —
unquoted characters literal, no backslash handling — fails on that output
(the claim-parser reads the `\` of `'\''` as a literal character and ends
inside an open quote), so it does not yield one argument equal to the input. -/
theorem escape_roundTrip_claimParser_cx :
    shellEscapeArg (JSValue.str ['a', '\'', 'b']) =
        Except.ok ['\'', 'a', '\'', '\\', '\'', '\'', 'b', '\''] ∧
      parseClaimWord ['\'', 'a', '\'', '\\', '\'', '\'', 'b', '\''] = none ∧
      (none : Option (List Char)) ≠ some ['a', '\'', 'b'] :=
  ⟨rfl, rfl, by decide⟩

/-- C1 (amended): for every input string that does not contain U+0000,
parsing the string returned by `shellEscapeArg` as a single POSIX shell word
(unquoted characters are literal, except that `'` opens a quoted section and
an unquoted backslash makes the following character literal; inside `'...'`
every character except the single quote is literal) yields exactly one
argument whose content equals the original input string. -/
theorem escape_roundTrip_posix (s : List Char) (hnul : nul ∉ s) :
    ∃ out, shellEscapeArg (JSValue.str s) = Except.ok out ∧
      parsePosixWord out = some s := by
  by_cases hq : needsQuoting s
  · refine ⟨'\'' :: (replaceQuotes s ++ ['\'']), ?_, ?_⟩
    · simp [shellEscapeArg, hnul, hq]
    · show parsePosix false ('\'' :: (replaceQuotes s ++ ['\''])) = some s
      rw [parsePosix_false_quote, parsePosix_quoted]
  · refine ⟨s, ?_, ?_⟩
    · simp [shellEscapeArg, hnul, hq]
    · exact parsePosix_literal s fun c hc =>
        no_quote_backslash_of_no_meta
          (needsQuoting_eq_false s (by simpa using hq)).2.2.2.2 hc

/-- Witness for `escape_roundTrip_posix` at the concrete input `a'b`. -/
theorem escape_roundTrip_posix_witness :
    ∃ out, shellEscapeArg (JSValue.str ['a', '\'', 'b']) = Except.ok out ∧
      parsePosixWord out = some ['a', '\'', 'b'] :=
  escape_roundTrip_posix ['a', '\'', 'b'] (by decide)

/-- C2 counterexample: on the input consisting of a single NUL character the
code throws the message `escape: arg must not include NUL (\u0000)`, which is
not the spec's stated text `arg must not include NUL (\u0000)`: the actual
messages carry an `escape: ` prefix (the code's own tests assert the prefixed
form). -/
theorem escape_error_messages_cx :
    shellEscapeArg (JSValue.str [nul]) =
        Except.error ⟨ErrKind.valueErr, "escape: arg must not include NUL (\\u0000)"⟩ ∧
      ("escape: arg must not include NUL (\\u0000)" : String) ≠
        "arg must not include NUL (\\u0000)" :=
  ⟨rfl, by decide⟩

/-- C2 (amended): whenever `shellEscapeArg` fails, the message is exactly
`escape: arg must be a string` for the TypeKind error and exactly
`escape: arg must not include NUL (\u0000)` for the ValueKind error — the
spec's texts each prefixed with `escape: `. -/
theorem escape_error_messages (v : JSValue) (e : ShellError)
    (h : shellEscapeArg v = Except.error e) :
    (e.kind = ErrKind.typeErr → e.message = "escape: arg must be a string") ∧
      (e.kind = ErrKind.valueErr →
        e.message = "escape: arg must not include NUL (\\u0000)") := by
  cases v with
  | nonString =>
    simp only [shellEscapeArg, Except.error.injEq] at h
    subst h
    exact ⟨fun _ => rfl, fun hk => by cases hk⟩
  | str s =>
    by_cases hn : nul ∈ s
    · simp only [shellEscapeArg, if_pos hn, Except.error.injEq] at h
      subst h
      refine ⟨fun hk => ?_, fun _ => rfl⟩
      cases hk
    · by_cases hq : needsQuoting s <;> simp [shellEscapeArg, hn, hq] at h

/-- Witness for `escape_error_messages` at the non-string input. -/
theorem escape_error_messages_witness :
    (ErrKind.typeErr = ErrKind.typeErr →
        ("escape: arg must be a string" : String) = "escape: arg must be a string") ∧
      (ErrKind.typeErr = ErrKind.valueErr →
        ("escape: arg must be a string" : String) =
          "escape: arg must not include NUL (\\u0000)") :=
  escape_error_messages JSValue.nonString
    ⟨ErrKind.typeErr, "escape: arg must be a string"⟩ rfl

/-- C4: on every NUL-free input that needs quoting, the result is exactly a
single quote, the input with each `'` replaced by the four characters
`'\''`, and a closing single quote. -/
theorem escape_quoted_form (s : List Char) (hnul : nul ∉ s)
    (hq : needsQuoting s = true) :
    shellEscapeArg (JSValue.str s) =
      Except.ok ('\'' :: (replaceQuotes s ++ ['\''])) := by
  simp [shellEscapeArg, hnul, hq]

/-- Witness for `escape_quoted_form` at the concrete input `a b`. -/
theorem escape_quoted_form_witness :
    shellEscapeArg (JSValue.str ['a', ' ', 'b']) =
      Except.ok ('\'' :: (replaceQuotes ['a', ' ', 'b'] ++ ['\''])) :=
  escape_quoted_form ['a', ' ', 'b'] (by decide) (by decide)

/-- C5: on every NUL-free input that does not need quoting, the result is the
input itself, character for character. -/
theorem escape_fast_path (s : List Char) (hnul : nul ∉ s)
    (hq : needsQuoting s = false) :
    shellEscapeArg (JSValue.str s) = Except.ok s := by
  simp [shellEscapeArg, hnul, hq]

/-- Witness for `escape_fast_path` at the concrete input `abc`. -/
theorem escape_fast_path_witness :
    shellEscapeArg (JSValue.str ['a', 'b', 'c']) = Except.ok ['a', 'b', 'c'] :=
  escape_fast_path ['a', 'b', 'c'] (by decide) (by decide)

/-- C6: on a string input, `shellEscapeArg` fails with a ValueKind error
exactly when the input contains U+0000.  Failure is the `Except.error`
branch, which carries no output at all, and the equivalence holds whatever
`needsQuoting` would say, reflecting that the NUL check precedes
classification and quoting. -/
theorem escape_nul_error_iff (s : List Char) :
    (∃ e, shellEscapeArg (JSValue.str s) = Except.error e ∧
        e.kind = ErrKind.valueErr) ↔ nul ∈ s := by
  by_cases hn : nul ∈ s
  · exact ⟨fun _ => hn,
      fun _ => ⟨⟨ErrKind.valueErr, "escape: arg must not include NUL (\\u0000)"⟩,
        by simp [shellEscapeArg, hn], rfl⟩⟩
  · simp only [hn, iff_false, not_exists]
    rintro e ⟨he, hk⟩
    by_cases hq : needsQuoting s <;> simp [shellEscapeArg, hn, hq] at he

/-- C8: the tilde trigger fires exactly when the first character is `~`, and
a NUL-free string whose `~`s all come after position 0 and which meets none
of the other four conditions passes through unchanged. -/
theorem tilde_only_leading (s : List Char) :
    (startsWithTilde s = true ↔ s.head? = some '~') ∧
      ((nul ∉ s ∧ s ≠ [] ∧ s.head? ≠ some '~' ∧ hasUnicodeWhitespace s = false ∧
          hasAsciiControlChars s = false ∧ hasShellMetaChars s = false) →
        shellEscapeArg (JSValue.str s) = Except.ok s) := by
  constructor
  · cases s with
    | nil => simp [startsWithTilde]
    | cons c rest => simp [startsWithTilde]
  · rintro ⟨hnul, hne, hhead, hw, hc, hm⟩
    have ht : startsWithTilde s = false := by
      cases s with
      | nil => rfl
      | cons c rest =>
        have : ¬ c = '~' := by simpa using hhead
        simpa [startsWithTilde] using this
    have hq : needsQuoting s = false := by
      simp [needsQuoting, List.isEmpty_iff, hne, ht, hw, hc, hm]
    simp [shellEscapeArg, hnul, hq]

/-- Witness for `tilde_only_leading` at the concrete input `a~b`. -/
theorem tilde_only_leading_witness :
    shellEscapeArg (JSValue.str ['a', '~', 'b']) = Except.ok ['a', '~', 'b'] :=
  (tilde_only_leading ['a', '~', 'b']).2 (by decide)

lemma startsWithTilde_iff (s : List Char) :
    startsWithTilde s = true ↔ s.head? = some '~' := by
  cases s with
  | nil => simp [startsWithTilde]
  | cons c rest => simp [startsWithTilde]

/-- C3 counterexample: the blacklist enumerated by the claim (and by the
source regex) consists of 20 pairwise distinct characters, not 19. -/
theorem needsQuoting_blacklist_cx :
    shellMetaChars.Nodup ∧ shellMetaChars.length = 20 ∧
      shellMetaChars.length ≠ 19 := by
  refine ⟨by decide, rfl, by decide⟩

/-- C3 (amended): `needsQuoting s` is true exactly when s is empty, or begins
with `~`, or contains a White_Space code point, or contains a code point in
U+0001.U+001F or U+007F, or contains one of the 20 blacklist characters. -/
theorem needsQuoting_characterization (s : List Char) :
    needsQuoting s = true ↔
      (s = [] ∨ s.head? = some '~' ∨ (∃ c ∈ s, isWhiteSpaceChar c = true) ∨
        (∃ c ∈ s, (0x01 ≤ c.toNat ∧ c.toNat ≤ 0x1f) ∨ c.toNat = 0x7f) ∨
        (∃ c ∈ s, c ∈ shellMetaChars)) := by
  simp only [needsQuoting, Bool.or_eq_true, List.isEmpty_iff, startsWithTilde_iff,
    hasUnicodeWhitespace, hasAsciiControlChars, hasShellMetaChars,
    isAsciiControl, isShellMetaChar, List.any_eq_true, decide_eq_true_eq,
    List.elem_iff, or_assoc]

/-- The list starts with a single quote. -/
def qAt : List Char → Bool
  | [] => false
  | a :: _ => a == '\''

/-- The list starts with two single quotes. -/
def qqAt : List Char → Bool
  | [] => false
  | a :: t => a == '\'' && qAt t

/-- The list starts with backslash, quote, quote. -/
def bqqAt : List Char → Bool
  | [] => false
  | a :: t => a == '\\' && qqAt t

/-- The list starts with the four-character escape sequence `'\''`. -/
def qbqqAt : List Char → Bool
  | [] => false
  | a :: t => a == '\'' && bqqAt t

/-- Number of positions of a list at which the escape sequence `'\''`
occurs. -/
def countEscSeq : List Char → Nat
  | [] => 0
  | c :: rest => (if qbqqAt (c :: rest) then 1 else 0) + countEscSeq rest

example : countEscSeq ['\'', 'O', '\'', '\\', '\'', '\'', 'R', '\''] = 1 := rfl

example :
    countEscSeq ['\'', '\'', '\\', '\'', '\'', '\'', '\\', '\'', '\'', '\''] = 2 := rfl

lemma qqAt_replaceQuotes (s : List Char) :
    qqAt (replaceQuotes s ++ ['\'']) = false := by
  cases s with
  | nil => rfl
  | cons c rest =>
    by_cases hc : c = '\''
    · subst hc; rfl
    · show qqAt ((escQuote c ++ replaceQuotes rest) ++ ['\'']) = false
      rw [escQuote, if_neg hc, List.singleton_append, List.cons_append]
      simp [qqAt, hc]

lemma bqqAt_replaceQuotes (s : List Char) :
    bqqAt (replaceQuotes s ++ ['\'']) = false := by
  cases s with
  | nil => rfl
  | cons c rest =>
    by_cases hc : c = '\''
    · subst hc; rfl
    · show bqqAt ((escQuote c ++ replaceQuotes rest) ++ ['\'']) = false
      rw [escQuote, if_neg hc, List.singleton_append, List.cons_append]
      by_cases hb : c = '\\'
      · subst hb
        simp [bqqAt, qqAt_replaceQuotes]
      · simp [bqqAt, hb]

lemma countEscSeq_replaceQuotes (s : List Char) :
    countEscSeq (replaceQuotes s ++ ['\'']) = s.count '\'' := by
  induction s with
  | nil => rfl
  | cons c rest ih =>
    by_cases hc : c = '\''
    · subst hc
      show countEscSeq
          ('\'' :: '\\' :: '\'' :: '\'' :: (replaceQuotes rest ++ ['\''])) =
        ('\'' :: rest).count '\''
      rw [countEscSeq, countEscSeq, countEscSeq, countEscSeq]
      have h0 : qbqqAt
          ('\'' :: '\\' :: '\'' :: '\'' :: (replaceQuotes rest ++ ['\''])) = true := by
        simp [qbqqAt, bqqAt, qqAt, qAt]
      have h1 : qbqqAt ('\\' :: '\'' :: '\'' :: (replaceQuotes rest ++ ['\''])) = false := by
        simp [qbqqAt]
      have h2 : qbqqAt ('\'' :: '\'' :: (replaceQuotes rest ++ ['\''])) = false := by
        simp [qbqqAt, bqqAt]
      have h3 : qbqqAt ('\'' :: (replaceQuotes rest ++ ['\''])) = false := by
        simp [qbqqAt, bqqAt_replaceQuotes]
      rw [h0, h1, h2, h3, ih]
      simp [List.count_cons, Nat.add_comm]
    · show countEscSeq ((escQuote c ++ replaceQuotes rest) ++ ['\'']) =
        (c :: rest).count '\''
      rw [escQuote, if_neg hc, List.singleton_append, List.cons_append, countEscSeq]
      have h0 : qbqqAt (c :: (replaceQuotes rest ++ ['\''])) = false := by
        simp [qbqqAt, hc]
      rw [h0, ih]
      simp [List.count_cons, hc]

lemma countEscSeq_of_no_quote (s : List Char) (h : ∀ c ∈ s, c ≠ '\'') :
    countEscSeq s = 0 := by
  induction s with
  | nil => rfl
  | cons c rest ih =>
    have hc : c ≠ '\'' := h c (List.mem_cons_self c rest)
    rw [countEscSeq]
    have h0 : qbqqAt (c :: rest) = false := by simp [qbqqAt, hc]
    rw [h0, ih fun x hx => h x (List.mem_cons_of_mem c hx)]
    simp

/-- C7: on every NUL-free input, the number of literal single quotes in the
input equals the number of occurrences of the escape sequence `'\''` in the
output. -/
theorem escape_quote_count (s : List Char) (hnul : nul ∉ s) :
    ∃ out, shellEscapeArg (JSValue.str s) = Except.ok out ∧
      countEscSeq out = s.count '\'' := by
  by_cases hq : needsQuoting s
  · refine ⟨'\'' :: (replaceQuotes s ++ ['\'']), by simp [shellEscapeArg, hnul, hq], ?_⟩
    rw [countEscSeq]
    have h0 : qbqqAt ('\'' :: (replaceQuotes s ++ ['\''])) = false := by
      simp [qbqqAt, bqqAt_replaceQuotes]
    rw [h0, countEscSeq_replaceQuotes]
    simp
  · refine ⟨s, by simp [shellEscapeArg, hnul, hq], ?_⟩
    have hm := (needsQuoting_eq_false s (by simpa using hq)).2.2.2.2
    have hnoq : ∀ c ∈ s, c ≠ '\'' := fun c hc =>
      (no_quote_backslash_of_no_meta hm hc).1
    rw [countEscSeq_of_no_quote s hnoq, List.count_eq_zero.mpr]
    intro h
    exact hnoq '\'' h rfl

/-- Witness for `escape_quote_count` at the concrete input `O'R`. -/
theorem escape_quote_count_witness :
    ∃ out, shellEscapeArg (JSValue.str ['O', '\'', 'R']) = Except.ok out ∧
      countEscSeq out = (['O', '\'', 'R'] : List Char).count '\'' :=
  escape_quote_count ['O', '\'', 'R'] (by decide)

lemma mem_replaceQuotes {s : List Char} {c : Char} (hc : c ∈ replaceQuotes s) :
    c ∈ s ∨ c = '\'' ∨ c = '\\' := by
  induction s with
  | nil => cases hc
  | cons d rest ih =>
    rcases List.mem_append.mp hc with h | h
    · by_cases hd : d = '\''
      · subst hd
        rcases (by simpa [escQuote] using h :
            c = '\'' ∨ c = '\\' ∨ c = '\'') with h' | h' | h'
        · exact Or.inr (Or.inl h')
        · exact Or.inr (Or.inr h')
        · exact Or.inr (Or.inl h')
      · have : c = d := by simpa [escQuote, hd] using h
        subst this
        exact Or.inl (List.mem_cons_self c rest)
    · rcases ih h with h' | h'
      · exact Or.inl (List.mem_cons_of_mem d h')
      · exact Or.inr h'

/-- C9: on every NUL-free input, the output either equals the input, or has
length at least two, begins and ends with a single quote, and — since `'` is
itself a blacklist character — satisfies `needsQuoting`. -/
theorem escape_output_shape (s : List Char) (hnul : nul ∉ s) :
    ∃ out, shellEscapeArg (JSValue.str s) = Except.ok out ∧
      (out = s ∨ (2 ≤ out.length ∧ out.head? = some '\'' ∧
        out.getLast? = some '\'' ∧ needsQuoting out = true)) := by
  by_cases hq : needsQuoting s
  · refine ⟨'\'' :: (replaceQuotes s ++ ['\'']),
      by simp [shellEscapeArg, hnul, hq], Or.inr ⟨?_, rfl, ?_, ?_⟩⟩
    · simp
    · rw [show '\'' :: (replaceQuotes s ++ ['\'']) =
        ('\'' :: replaceQuotes s) ++ ['\''] from rfl]
      exact List.getLast?_concat _
    · have hmeta : hasShellMetaChars ('\'' :: (replaceQuotes s ++ ['\''])) = true := by
        refine List.any_eq_true.mpr ⟨'\'', List.mem_cons_self _ _, by decide⟩
      simp [needsQuoting, hmeta]
  · exact ⟨s, by simp [shellEscapeArg, hnul, hq], Or.inl rfl⟩

/-- Witness for `escape_output_shape` at the concrete input `a b`. -/
theorem escape_output_shape_witness :
    ∃ out, shellEscapeArg (JSValue.str ['a', ' ', 'b']) = Except.ok out ∧
      (out = ['a', ' ', 'b'] ∨ (2 ≤ out.length ∧ out.head? = some '\'' ∧
        out.getLast? = some '\'' ∧ needsQuoting out = true)) :=
  escape_output_shape ['a', ' ', 'b'] (by decide)

/-- C10: on every NUL-free input, every character of the output is a
character of the input, a single quote, or a backslash; in particular the
output never contains U+0000. -/
theorem escape_output_chars (s : List Char) (hnul : nul ∉ s) :
    ∃ out, shellEscapeArg (JSValue.str s) = Except.ok out ∧
      (∀ c ∈ out, c ∈ s ∨ c = '\'' ∨ c = '\\') ∧ nul ∉ out := by
  by_cases hq : needsQuoting s
  · have hchars : ∀ c ∈ '\'' :: (replaceQuotes s ++ ['\'']),
        c ∈ s ∨ c = '\'' ∨ c = '\\' := by
      intro c hc
      rcases List.mem_cons.mp hc with rfl | hc2
      · exact Or.inr (Or.inl rfl)
      rcases List.mem_append.mp hc2 with h | h
      · exact mem_replaceQuotes h
      · exact Or.inr (Or.inl (by simpa using h))
    refine ⟨'\'' :: (replaceQuotes s ++ ['\'']),
      by simp [shellEscapeArg, hnul, hq], hchars, ?_⟩
    intro hmem
    rcases hchars nul hmem with h' | h' | h'
    · exact hnul h'
    · exact absurd h' (by decide)
    · exact absurd h' (by decide)
  · exact ⟨s, by simp [shellEscapeArg, hnul, hq], fun c hc => Or.inl hc, hnul⟩

/-- Witness for `escape_output_chars` at the concrete input `O'R`. -/
theorem escape_output_chars_witness :
    ∃ out, shellEscapeArg (JSValue.str ['O', '\'', 'R']) = Except.ok out ∧
      (∀ c ∈ out, c ∈ (['O', '\'', 'R'] : List Char) ∨ c = '\'' ∨ c = '\\') ∧
        nul ∉ out :=
  escape_output_chars ['O', '\'', 'R'] (by decide)
